import Mathlib

/-!
Verification development for the vectorized multi-agent environment core of
`harl/envs/env_wrappers.py`: the worker auto-reset protocol (`shareworker`),
the subprocess vectorized environment (`ShareSubprocVecEnv`), the in-process
variant (`ShareDummyVecEnv`), and the padding/stacking utility
(`IsaacLabWrapper.stack_padded_tensors_last_axis`).

Tensors are embedded as nested lists of integers; machine state crossing
process boundaries is embedded as explicit state-passing over plain data.
-/

namespace EnvWrappers

/-! ## Padding/stacking utility -/

/-- `torch.nn.functional.pad(t, (0, n - len(t)), 'constant', fill)` on a
rank-1 tensor: right-pad to length `n` with `fill`. -/
def padRight (t : List Int) (n : Nat) (fill : Int) : List Int :=
  t ++ List.replicate (n - t.length) fill

/-- Python `max` over a list of sizes (0 for the empty list, which Python
rejects; all uses carry a nonemptiness hypothesis). -/
def maxNat (l : List Nat) : Nat := l.foldr max 0

/-- `torch.stack(vs, -1)` for a list of rank-1 tensors of a common length M:
the result has shape (M, N) with entry `[m][i] = vs[i][m]`. -/
def stackLastAxis1 (vs : List (List Int)) : List (List Int) :=
  (List.range ((vs.headD []).length)).map (fun m => vs.map (fun v => v.getD m 0))

/-- `t.transpose(-1, -2)` on a rank-2 tensor. -/
def transposeLast2 (t : List (List Int)) : List (List Int) :=
  (List.range ((t.headD []).length)).map (fun j => t.map (fun row => row.getD j 0))

/-- `IsaacLabWrapper.stack_padded_tensors_last_axis` for a sequence of rank-1
tensors: compute the max last-dimension extent, right-pad each tensor to it
with `padding_value` (the source's default is 0), then
`torch.stack(padded, -1).transpose(-1, -2)`. -/
def stack_padded_tensors_last_axis (tensors : List (List Int)) (padding_value : Int) :
    List (List Int) :=
  let max_size := maxNat (tensors.map (fun tensor => tensor.length))
  let padded_tensors := tensors.map (fun tensor => padRight tensor max_size padding_value)
  transposeLast2 (stackLastAxis1 padded_tensors)

/-- A rank-2 tensor: leading dimension outermost, last dimension innermost. -/
abbrev Tensor2 := List (List Int)

/-- `torch.stack(ts, -1)` for rank-2 tensors of common shape (A, M): the
result has shape (A, M, N) with entry `[a][m][i] = ts[i][a][m]`. -/
def stackLastAxis2 (ts : List Tensor2) : List Tensor2 :=
  (List.range (ts.headD []).length).map (fun a =>
    (List.range ((ts.headD []).headD []).length).map (fun m =>
      ts.map (fun t => (t.getD a []).getD m 0)))

/-- `t.transpose(-1, -2)` on a rank-3 tensor. -/
def transposeLast3 (t : List Tensor2) : List Tensor2 := t.map transposeLast2

/-- `IsaacLabWrapper.stack_padded_tensors_last_axis` for a sequence of rank-2
tensors, same algorithm as the rank-1 instance (the source is rank-generic):
`shape[-1]` of a rank-2 tensor is the length of its rows. -/
def stack_padded_tensors_last_axis2 (tensors : List Tensor2) (padding_value : Int) :
    List Tensor2 :=
  let max_size := maxNat (tensors.map (fun t => (t.headD []).length))
  let padded_tensors := tensors.map (fun t => t.map (fun row => padRight row max_size padding_value))
  transposeLast3 (stackLastAxis2 padded_tensors)

lemma length_padRight (t : List Int) (n : Nat) (f : Int) (h : t.length ≤ n) :
    (padRight t n f).length = n := by
  simp [padRight]
  omega

lemma le_maxNat_of_mem {l : List Nat} {a : Nat} (h : a ∈ l) : a ≤ maxNat l := by
  induction l with
  | nil => cases h
  | cons b bs ih =>
    rcases List.mem_cons.mp h with h | h
    · subst h; exact le_max_left _ _
    · exact le_trans (ih h) (le_max_right _ _)

lemma transpose_stack_id (vs : List (List Int)) (M : Nat)
    (hlen : ∀ v ∈ vs, v.length = M) (hM : 0 < M) (hvs : vs ≠ []) :
    transposeLast2 (stackLastAxis1 vs) = vs := by
  obtain ⟨v0, vs', rfl⟩ := List.exists_cons_of_ne_nil hvs
  have hv0 : v0.length = M := hlen v0 (by simp)
  set ws : List (List Int) := v0 :: vs' with hws
  have hS : stackLastAxis1 ws = (List.range M).map (fun m => ws.map (fun v => v.getD m 0)) := by
    simp [stackLastAxis1, hws, hv0]
  obtain ⟨M', rfl⟩ := Nat.exists_eq_succ_of_ne_zero (Nat.pos_iff_ne_zero.mp hM)
  have hhead : (stackLastAxis1 ws).headD [] = ws.map (fun v => v.getD 0 0) := by
    rw [hS, List.range_succ_eq_map]
    simp
  have hheadlen : ((stackLastAxis1 ws).headD []).length = ws.length := by
    rw [hhead, List.length_map]
  rw [transposeLast2, hheadlen]
  apply List.ext_getElem
  · simp
  · intro j hj hj2
    simp only [List.getElem_map, List.getElem_range]
    apply List.ext_getElem
    · rw [List.length_map, hS, List.length_map, List.length_range]
      exact (hlen (ws[j]) (List.getElem_mem hj2)).symm
    · intro m hm hm2
      have hmM : m < M' + 1 := by
        rw [List.length_map, hS, List.length_map, List.length_range] at hm
        exact hm
      have hjlen : j < (List.range (ws.length)).length := by simpa using hj
      simp only [List.getElem_map, hS, List.getElem_range]
      have hjws : j < (ws.map (fun v => v.getD m 0)).length := by
        simpa using hj2
      rw [List.getD_eq_getElem _ _ hjws, List.getElem_map]
      have : m < (ws[j]).length := by
        rw [hlen (ws[j]) (List.getElem_mem hj2)]
        exact hmM
      rw [List.getD_eq_getElem _ _ this]

/-- The composed `stack(-1)`/`transpose(-1,-2)` pipeline on rank-1 tensors is
exactly the list of right-padded tensors in input order. -/
lemma stack_padded1_char (tensors : List (List Int)) (fill : Int)
    (h0 : tensors ≠ []) (hmax : 0 < maxNat (tensors.map (fun t => t.length))) :
    stack_padded_tensors_last_axis tensors fill =
      tensors.map (fun t => padRight t (maxNat (tensors.map (fun t => t.length))) fill) := by
  set M := maxNat (tensors.map (fun t => t.length)) with hM
  have hle : ∀ t ∈ tensors, t.length ≤ M := by
    intro t ht
    exact le_maxNat_of_mem (List.mem_map_of_mem (fun t => t.length) ht)
  unfold stack_padded_tensors_last_axis
  rw [← hM]
  apply transpose_stack_id _ M
  · intro v hv
    obtain ⟨t, ht, rfl⟩ := List.mem_map.mp hv
    exact length_padRight _ _ _ (hle t ht)
  · exact hmax
  · simpa using h0

lemma headD_map {α β : Type} (f : α → β) (l : List α) (h : l ≠ []) (d : β) (d2 : α) :
    (l.map f).headD d = f (l.headD d2) := by
  cases l with
  | nil => exact absurd rfl h
  | cons a l => simp

lemma getD_mem_of_lt {α : Type} {l : List α} {n : Nat} (d : α) (h : n < l.length) :
    l.getD n d ∈ l := by
  rw [List.getD_eq_getElem _ _ h]
  exact List.getElem_mem h

/-- The rank-3 `stack(-1)`/`transpose(-1,-2)` pipeline applied to a rectangular
list of rank-2 tensors of common shape (A, M) places the stacked axis at
position -2: slice `[a][i]` of the result is row `a` of tensor `i`. -/
lemma transpose_stack2_id (ps : List Tensor2) (A M : Nat)
    (hpA : ∀ p ∈ ps, p.length = A) (hprow : ∀ p ∈ ps, ∀ row ∈ p, row.length = M)
    (hA0 : 0 < A) (hM : 0 < M) (hne : ps ≠ []) :
    transposeLast3 (stackLastAxis2 ps) =
      (List.range A).map (fun a => ps.map (fun p => p.getD a [])) := by
  obtain ⟨p0, ps', rfl⟩ := List.exists_cons_of_ne_nil hne
  have hp0A : p0.length = A := hpA p0 (by simp)
  obtain ⟨r00, p0rest, hr00⟩ := List.exists_cons_of_ne_nil
    (by rw [← List.length_pos_iff_ne_nil, hp0A]; exact hA0 : p0 ≠ [])
  have hr00M : r00.length = M := hprow p0 (by simp) r00 (by rw [hr00]; simp)
  have hstack : stackLastAxis2 (p0 :: ps') =
      (List.range A).map (fun a =>
        (List.range M).map (fun m => (p0 :: ps').map (fun t => (t.getD a []).getD m 0))) := by
    rw [stackLastAxis2]
    simp only [List.headD_cons]
    rw [hp0A, hr00, List.headD_cons, hr00M]
  rw [transposeLast3, hstack, List.map_map]
  apply List.map_congr_left
  intro a ha
  rw [List.mem_range] at ha
  simp only [Function.comp_apply]
  have hinner : (List.range M).map
        (fun m => (p0 :: ps').map (fun t => (t.getD a []).getD m 0)) =
      stackLastAxis1 ((p0 :: ps').map (fun t => t.getD a [])) := by
    rw [stackLastAxis1]
    have hh : (((p0 :: ps').map (fun t => t.getD a [])).headD []).length = M := by
      simp only [List.map_cons, List.headD_cons]
      exact hprow p0 (by simp) _ (getD_mem_of_lt [] (by rw [hp0A]; exact ha))
    rw [hh]
    simp only [List.map_map]
    rfl
  rw [hinner, transpose_stack_id _ M]
  · intro v hv
    obtain ⟨p, hp, rfl⟩ := List.mem_map.mp hv
    exact hprow p hp _ (getD_mem_of_lt [] (by rw [hpA p hp]; exact ha))
  · exact hM
  · simp

/-- The rank-2 padding/stacking pipeline: the output's leading axis is the
tensors' common leading dimension `A`, the stacked axis sits at position -2
(between the leading axis and the padded last axis), and slice `[a][i]` is
tensor `i`'s row `a`, right-padded to the max last-dimension extent. -/
lemma stack_padded2_char (tensors : List Tensor2) (fill : Int) (A : Nat)
    (h0 : tensors ≠ []) (hA : ∀ t ∈ tensors, t.length = A) (hA0 : 0 < A)
    (hrect : ∀ t ∈ tensors, ∀ row ∈ t, row.length = (t.headD []).length)
    (hmax : 0 < maxNat (tensors.map (fun t => (t.headD []).length))) :
    stack_padded_tensors_last_axis2 tensors fill =
      (List.range A).map (fun a =>
        tensors.map (fun t =>
          padRight (t.getD a []) (maxNat (tensors.map (fun t2 => (t2.headD []).length))) fill)) := by
  have hle : ∀ t ∈ tensors,
      (t.headD []).length ≤ maxNat (tensors.map (fun t => (t.headD []).length)) := by
    intro t ht
    exact le_maxNat_of_mem (List.mem_map_of_mem (fun t => (t.headD []).length) ht)
  unfold stack_padded_tensors_last_axis2
  rw [transpose_stack2_id _ A (maxNat (tensors.map (fun t => (t.headD []).length)))]
  · apply List.map_congr_left
    intro a ha
    rw [List.mem_range] at ha
    rw [List.map_map]
    apply List.map_congr_left
    intro t ht
    simp only [Function.comp_apply]
    rw [List.getD_eq_getElem _ _ (by rw [List.length_map, hA t ht]; exact ha),
      List.getElem_map,
      List.getD_eq_getElem _ _ (by rw [hA t ht]; exact ha)]
  · intro p hp
    obtain ⟨t, ht, rfl⟩ := List.mem_map.mp hp
    rw [List.length_map]
    exact hA t ht
  · intro p hp row hrow
    obtain ⟨t, ht, rfl⟩ := List.mem_map.mp hp
    obtain ⟨r0, hr0, rfl⟩ := List.mem_map.mp hrow
    refine length_padRight _ _ _ ?_
    rw [hrect t ht r0 hr0]
    exact hle t ht
  · exact hA0
  · exact hmax
  · simpa using h0

/-! ## Single-environment data model

One observation / shared observation / reward / available-actions value is a
rank-1 integer array.  `done` is either a scalar boolean (the source detects
this with `"bool" in done.__class__.__name__`) or a per-agent collection of
booleans.  `info` is a sequence whose element 0 is expected to be a mutable
mapping; `InfoEntry.notMapping` stands for any non-mapping element. -/

abbrev Arr := List Int

inductive Done
  | scalar : Bool → Done
  | perAgent : List Bool → Done
deriving DecidableEq, Repr

/-- `np.all` over a per-agent collection of booleans (`True` on empty input). -/
def npAll (bs : List Bool) : Bool := bs.all id

/-- The termination test the worker applies: the scalar itself for a scalar
`done`, `np.all` for a per-agent collection. -/
def autoResetCond : Done → Bool
  | .scalar b => b
  | .perAgent bs => npAll bs

/-- A Python dict keyed by strings; lookup returns the first matching entry. -/
abbrev Dict := List (String × Arr)

def dictGet (d : Dict) (k : String) : Option Arr :=
  (d.find? (fun p => p.1 == k)).map (fun p => p.2)

/-- Python dict item assignment: replace in place if the key exists, else
append at the end. -/
def dictSet (d : Dict) (k : String) (v : Arr) : Dict :=
  if d.any (fun p => p.1 == k) then d.map (fun p => if p.1 == k then (k, v) else p)
  else d ++ [(k, v)]

inductive InfoEntry
  | mapping : Dict → InfoEntry
  | notMapping
deriving DecidableEq, Repr

abbrev Info := List InfoEntry

/-- A worker exception (IndexError / TypeError from the `info[0][...]` writes,
propagated uncaught out of the worker loop or `step_wait`). -/
inductive WorkerErr
  | raised
deriving DecidableEq, Repr

/-- The 6-tuple returned by a single environment's `step`. -/
structure StepRaw where
  ob : Arr
  s_ob : Arr
  reward : Arr
  done : Done
  info : Info
  avail : Arr
deriving DecidableEq, Repr

instance : Inhabited StepRaw := ⟨⟨[], [], [], Done.scalar false, [], []⟩⟩

/-- The 3-tuple returned by a single environment's `reset`. -/
structure ResetRaw where
  ob : Arr
  s_ob : Arr
  avail : Arr
deriving DecidableEq, Repr

instance : Inhabited ResetRaw := ⟨⟨[], [], []⟩⟩

/-- An environment instance under the single-environment contract, as a
deterministic state machine over a `Nat` internal state: `stepF` is
`env.step` (actions are integers), `resetF` is `env.reset`. -/
structure EnvModel where
  stepF : Nat → Int → StepRaw × Nat
  resetF : Nat → ResetRaw × Nat

/-- A placeholder instance used only as a `getD` default. -/
def defaultEnv : EnvModel :=
  { stepF := fun s _ => (default, s), resetF := fun s => (default, s) }

/-! ## Worker auto-reset (`shareworker`, step command) -/

/-- The three `info[0][key] = copy.deepcopy(value)` writes.  Deep copying is
value copying in this pure embedding.  An empty `info` raises IndexError; a
non-mapping `info[0]` raises TypeError; either aborts the worker. -/
def injectOriginals (info : Info) (ob s_ob avail : Arr) : Except WorkerErr Info :=
  match info with
  | [] => Except.error WorkerErr.raised
  | InfoEntry.notMapping :: _ => Except.error WorkerErr.raised
  | InfoEntry.mapping d :: rest =>
    Except.ok (InfoEntry.mapping
      (dictSet (dictSet (dictSet d "original_obs" ob) "original_state" s_ob)
        "original_avail_actions" avail) :: rest)

/-- The `step` command branch of `shareworker`: step the instance; if `done`
is a scalar bool and true, or a per-agent collection with `np.all(done)`,
record the terminal observation/state/available-actions in `info[0]` and
substitute the fresh `reset` outputs; reward/done are passed through. -/
def workerStep (env : EnvModel) (st : Nat) (a : Int) : Except WorkerErr (StepRaw × Nat) :=
  let (r, st1) := env.stepF st a
  match r.done with
  | Done.scalar b =>
    if b then
      match injectOriginals r.info r.ob r.s_ob r.avail with
      | Except.error e => Except.error e
      | Except.ok info2 =>
        let (rr, st2) := env.resetF st1
        Except.ok ({ r with ob := rr.ob, s_ob := rr.s_ob, avail := rr.avail, info := info2 }, st2)
    else Except.ok (r, st1)
  | Done.perAgent bs =>
    if npAll bs then
      match injectOriginals r.info r.ob r.s_ob r.avail with
      | Except.error e => Except.error e
      | Except.ok info2 =>
        let (rr, st2) := env.resetF st1
        Except.ok ({ r with ob := rr.ob, s_ob := rr.s_ob, avail := rr.avail, info := info2 }, st2)
    else Except.ok (r, st1)

/-- The auto-reset substitution shared by both `done`-shape branches. -/
def doAutoReset (env : EnvModel) (r : StepRaw) (st : Nat) : Except WorkerErr (StepRaw × Nat) :=
  match injectOriginals r.info r.ob r.s_ob r.avail with
  | Except.error e => Except.error e
  | Except.ok info2 =>
    let (rr, st2) := env.resetF st
    Except.ok ({ r with ob := rr.ob, s_ob := rr.s_ob, avail := rr.avail, info := info2 }, st2)

/-- The per-index body of the `ShareDummyVecEnv.step_wait` auto-reset loop,
applied to one instance's step result: same shape dispatch on `done` and same
substitution as the worker. -/
def dummyAutoResetOne (env : EnvModel) (r : StepRaw) (st : Nat) :
    Except WorkerErr (StepRaw × Nat) :=
  match r.done with
  | Done.scalar b => if b then doAutoReset env r st else Except.ok (r, st)
  | Done.perAgent bs => if npAll bs then doAutoReset env r st else Except.ok (r, st)

/-- Spec-side rephrasing (design note §9 of the spec): a single normalization
`autoResetCond` decides the reset, instead of the duplicated shape branches. -/
def workerStepSpec (env : EnvModel) (st : Nat) (a : Int) : Except WorkerErr (StepRaw × Nat) :=
  let (r, st1) := env.stepF st a
  if autoResetCond r.done then doAutoReset env r st1 else Except.ok (r, st1)

lemma workerStep_eq_spec (env : EnvModel) (st : Nat) (a : Int) :
    workerStep env st a = workerStepSpec env st a := by
  unfold workerStep workerStepSpec doAutoReset
  cases hr : (env.stepF st a).1.done with
  | scalar b => cases b <;> simp [autoResetCond, hr]
  | perAgent bs => cases hbs : npAll bs <;> simp [autoResetCond, hr, hbs]

lemma dummyAutoResetOne_eq (env : EnvModel) (r : StepRaw) (st : Nat) :
    dummyAutoResetOne env r st =
      if autoResetCond r.done then doAutoReset env r st else Except.ok (r, st) := by
  unfold dummyAutoResetOne
  cases hr : r.done with
  | scalar b => cases b <;> simp [autoResetCond]
  | perAgent bs => cases hbs : npAll bs <;> simp [autoResetCond, hbs]

/-- The worker's step processing coincides with the in-process loop body
applied to the raw step result. -/
lemma workerStep_eq_autoResetOne (env : EnvModel) (st : Nat) (a : Int) :
    workerStep env st a =
      dummyAutoResetOne env (env.stepF st a).1 (env.stepF st a).2 := by
  rw [workerStep_eq_spec, dummyAutoResetOne_eq]
  rfl

/-! ## Dict lemmas -/

lemma dictGet_dictSet_same (d : Dict) (k : String) (v : Arr) :
    dictGet (dictSet d k v) k = some v := by
  unfold dictSet dictGet
  by_cases h : d.any (fun p => p.1 == k)
  · rw [if_pos h, List.find?_map]
    have hpred : (fun p : String × Arr => p.1 == k) ∘
        (fun p : String × Arr => if p.1 == k then (k, v) else p) =
        (fun p : String × Arr => p.1 == k) := by
      funext p
      by_cases hp : p.1 == k <;> simp [Function.comp, hp]
    rw [hpred]
    obtain ⟨p, hp, hpk⟩ := List.any_eq_true.mp h
    have hsome : (d.find? (fun p => p.1 == k)).isSome := List.find?_isSome.mpr ⟨p, hp, hpk⟩
    obtain ⟨q, hq⟩ := Option.isSome_iff_exists.mp hsome
    rw [hq]
    have hqk := List.find?_some hq
    simp only [Option.map_map, Option.map_some', Function.comp_apply]
    rw [if_pos (by simpa using hqk)]
  · rw [if_neg h, List.find?_append]
    have hnone : d.find? (fun p => p.1 == k) = none := by
      rw [List.find?_eq_none]
      intro p hp hpk
      exact h (List.any_eq_true.mpr ⟨p, hp, hpk⟩)
    rw [hnone]
    simp

lemma dictGet_dictSet_other (d : Dict) (k k2 : String) (v : Arr) (hne : k2 ≠ k) :
    dictGet (dictSet d k v) k2 = dictGet d k2 := by
  unfold dictSet dictGet
  by_cases h : d.any (fun p => p.1 == k)
  · rw [if_pos h, List.find?_map]
    have hpred : (fun p : String × Arr => p.1 == k2) ∘
        (fun p : String × Arr => if p.1 == k then (k, v) else p) =
        (fun p : String × Arr => p.1 == k2) := by
      funext p
      by_cases hp : p.1 == k
      · have hpk : p.1 = k := by simpa using hp
        simp [Function.comp, hp, hpk]
      · simp [Function.comp, hp]
    rw [hpred]
    cases hfind : d.find? (fun p => p.1 == k2) with
    | none => simp
    | some q =>
      have hq2 := List.find?_some hfind
      have hqk : ¬((q.1 == k) = true) := by
        have hq2e : q.1 = k2 := by simpa using hq2
        rw [hq2e]
        simpa using hne
      simp only [Option.map_map, Option.map_some', Function.comp_apply]
      rw [if_neg (by simpa using hqk)]
  · rw [if_neg h, List.find?_append]
    have hlast : ([(k, v)].find? (fun p => p.1 == k2)) = none := by
      simp
      exact fun hk => hne hk.symm
    rw [hlast]
    cases d.find? (fun p => p.1 == k2) <;> simp

/-! ## Subprocess vectorized environment (`ShareSubprocVecEnv`)

Each worker owns one instance and processes a command synchronously as soon
as it is sent; the orchestrator-side view is the per-channel queue of replies
not yet received.  A worker that raises (see `injectOriginals`) dies without
replying; its channel queue stays empty and a later `recv` on it blocks. -/

inductive Reply
  | step : StepRaw → Reply
  | rst : ResetRaw → Reply
deriving DecidableEq, Repr

/-- Orchestrator-side state of `ShareSubprocVecEnv` (the env models are fixed
at construction and passed separately).  `closeCounts` counts the `close`
commands sent on each channel. -/
structure SubprocState where
  states : List Nat
  queues : List (List Reply)
  alive : List Bool
  waiting : Bool
  closed : Bool
  closeCounts : List Nat
deriving DecidableEq, Repr

/-- Per-channel effect of sending a `step` command: a live worker executes
the `shareworker` step branch and replies (or dies raising); a dead worker
never replies. -/
def procChannel (env : EnvModel) (st : Nat) (q : List Reply) (al : Bool) (a : Int) :
    Nat × List Reply × Bool :=
  if al then
    match workerStep env st a with
    | Except.ok (r, st2) => (st2, q ++ [Reply.step r], al)
    | Except.error _ => (st, q, false)
  else (st, q, al)

/-- `for remote, action in zip(self.remotes, actions): remote.send(("step", action))`:
walk channels and actions in lockstep, truncating at the shorter. -/
def sendSteps : List EnvModel → List Nat → List (List Reply) → List Bool → List Int →
    List Nat × List (List Reply) × List Bool
  | _, sts, qs, als, [] => (sts, qs, als)
  | env :: envs, st :: sts, q :: qs, al :: als, a :: acts =>
    let (st2, q2, al2) := procChannel env st q al a
    let (sts2, qs2, als2) := sendSteps envs sts qs als acts
    (st2 :: sts2, q2 :: qs2, al2 :: als2)
  | _, sts, qs, als, _ => (sts, qs, als)

/-- Outcome of a `step_async` call.  The spec's taxonomy names
`ProtocolViolation` for a second `step_async` with one already pending; the
constructor exists so that the claim is statable against the model. -/
inductive AsyncOut
  | ok : SubprocState → AsyncOut
  | protocolViolation : AsyncOut
deriving DecidableEq, Repr

/-- `ShareSubprocVecEnv.step_async`: fan out the actions and set `waiting`.
The source performs no pending-check of any kind. -/
def step_async (envs : List EnvModel) (s : SubprocState) (actions : List Int) : AsyncOut :=
  let (sts, qs, als) := sendSteps envs s.states s.queues s.alive actions
  AsyncOut.ok { s with states := sts, queues := qs, alive := als, waiting := true }

/-- `[remote.recv() for remote in self.remotes]`: one blocking receive per
channel in channel order; `none` when some channel has nothing to deliver
(the orchestrator blocks). -/
def recvAll : List (List Reply) → Option (List Reply × List (List Reply))
  | [] => some ([], [])
  | [] :: _ => none
  | (r :: q) :: rest =>
    match recvAll rest with
    | none => none
    | some (rs, qs) => some (r :: rs, q :: qs)

/-- Extract step replies; `none` when a reply has the wrong arity (the
`zip(*results)` unpacking would raise). -/
def allSteps : List Reply → Option (List StepRaw)
  | [] => some []
  | Reply.step r :: rest => (allSteps rest).map (fun rs => r :: rs)
  | Reply.rst _ :: _ => none

/-- The `np.stack`-ed batch returned by `step_wait`: each of the five tensor
fields is stacked along a new leading axis (list position = channel index);
`infos` stays an ordered, unstacked sequence. -/
structure Batched where
  obs : List Arr
  share_obs : List Arr
  rews : List Arr
  dones : List Done
  infos : List Info
  avails : List Arr
deriving DecidableEq, Repr

def stackSteps (rs : List StepRaw) : Batched :=
  { obs := rs.map (fun r => r.ob), share_obs := rs.map (fun r => r.s_ob),
    rews := rs.map (fun r => r.reward), dones := rs.map (fun r => r.done),
    infos := rs.map (fun r => r.info), avails := rs.map (fun r => r.avail) }

/-- Outcome of a `step_wait` call; `blocked` is a receive that never
completes.  `protocolViolation` exists only to state the spec's claim. -/
inductive WaitOut
  | ok : Batched → SubprocState → WaitOut
  | blocked : WaitOut
  | failed : WaitOut
  | protocolViolation : WaitOut
deriving DecidableEq, Repr

/-- `ShareSubprocVecEnv.step_wait`: receive once per channel in order, clear
`waiting`, stack.  The source performs no pending-check of any kind. -/
def step_wait (s : SubprocState) : WaitOut :=
  match recvAll s.queues with
  | none => WaitOut.blocked
  | some (rs, qs) =>
    match allSteps rs with
    | none => WaitOut.failed
    | some srs => WaitOut.ok (stackSteps srs) { s with queues := qs, waiting := false }

/-- `for remote in self.remotes: remote.send(("reset", None))`: every live
worker resets its instance and replies. -/
def sendResets : List EnvModel → List Nat → List (List Reply) → List Bool →
    List Nat × List (List Reply) × List Bool
  | env :: envs, st :: sts, q :: qs, al :: als =>
    let (st2, q2) :=
      if al then
        let (rr, st3) := env.resetF st
        (st3, q ++ [Reply.rst rr])
      else (st, q)
    let (sts2, qs2, als2) := sendResets envs sts qs als
    (st2 :: sts2, q2 :: qs2, al :: als2)
  | _, sts, qs, als => (sts, qs, als)

/-- The stacked triple returned by `reset`. -/
structure ResetB where
  obs : List Arr
  share_obs : List Arr
  avails : List Arr
deriving DecidableEq, Repr

def allResets : List Reply → Option (List ResetRaw)
  | [] => some []
  | Reply.rst r :: rest => (allResets rest).map (fun rs => r :: rs)
  | Reply.step _ :: _ => none

def stackResets (rs : List ResetRaw) : ResetB :=
  { obs := rs.map (fun r => r.ob), share_obs := rs.map (fun r => r.s_ob),
    avails := rs.map (fun r => r.avail) }

/-- `ShareSubprocVecEnv.reset`: send `reset` everywhere, receive everywhere,
stack; `none` when a receive blocks or a reply has the wrong arity. -/
def vecReset (envs : List EnvModel) (s : SubprocState) : Option (ResetB × SubprocState) :=
  let (sts, qs, als) := sendResets envs s.states s.queues s.alive
  match recvAll qs with
  | none => none
  | some (rs, qs2) =>
    match allResets rs with
    | none => none
    | some rrs =>
      some (stackResets rrs, { s with states := sts, queues := qs2, alive := als })

/-- `ShareSubprocVecEnv.close`: no-op when already closed; otherwise, when an
async step is pending, drain one reply per channel (discarded; blocks if a
worker never replies), then send `close` everywhere and join. -/
def closeSub (s : SubprocState) : Option SubprocState :=
  if s.closed then some s
  else
    match (if s.waiting then
        match recvAll s.queues with
        | none => none
        | some (_, qs) => some { s with queues := qs }
      else some s) with
    | none => none
    | some s1 =>
      some { s1 with closeCounts := s1.closeCounts.map (fun c => c + 1),
                     alive := s1.alive.map (fun _ => false), closed := true }

/-! ## In-process vectorized environment (`ShareDummyVecEnv`) -/

/-- Orchestrator state of `ShareDummyVecEnv`: per-instance internal states,
the action batch stored by `step_async`, and how many times `env.close()` has
been called on each instance. -/
structure DummyState where
  states : List Nat
  actions : Option (List Int)
  envCloseCounts : List Nat
deriving DecidableEq, Repr

/-- `ShareDummyVecEnv.step_async`: just store the batch. -/
def dummyStepAsync (s : DummyState) (actions : List Int) : DummyState :=
  { s with actions := some actions }

/-- The `for i, done in enumerate(dones)` auto-reset loop of
`ShareDummyVecEnv.step_wait`, rendered as structural recursion over the
parallel per-instance data (each iteration reads and writes only index i, in
increasing order, aborting at the first raised exception). -/
def dummyLoop : List EnvModel → List (StepRaw × Nat) → Except WorkerErr (List (StepRaw × Nat))
  | _, [] => Except.ok []
  | [], x :: rest =>
    match dummyLoop [] rest with
    | Except.error e => Except.error e
    | Except.ok l => Except.ok (x :: l)
  | env :: envs, (r, st) :: rest =>
    match dummyAutoResetOne env r st with
    | Except.error e => Except.error e
    | Except.ok x =>
      match dummyLoop envs rest with
      | Except.error e => Except.error e
      | Except.ok l => Except.ok (x :: l)

/-- `ShareDummyVecEnv.step_wait`: step each instance over
`zip(self.actions, self.envs)`, run the auto-reset loop, clear the stored
actions, return the batch.  A call with no stored actions iterates over
`None` and raises. -/
def dummyStepWait (envs : List EnvModel) (s : DummyState) :
    Except WorkerErr (Batched × DummyState) :=
  match s.actions with
  | none => Except.error WorkerErr.raised
  | some acts =>
    let stepped := (acts.zip (envs.zip s.states)).map (fun p => p.2.1.stepF p.2.2 p.1)
    match dummyLoop envs stepped with
    | Except.error e => Except.error e
    | Except.ok results =>
      Except.ok (stackSteps (results.map (fun x => x.1)),
        { s with actions := none,
                 states := results.map (fun x => x.2) ++ s.states.drop results.length })

/-- `ShareDummyVecEnv.reset`: reset every instance, stack the triples. -/
def dummyReset (envs : List EnvModel) (s : DummyState) : ResetB × DummyState :=
  let results := (envs.zip s.states).map (fun p => p.1.resetF p.2)
  (stackResets (results.map (fun x => x.1)),
   { s with states := results.map (fun x => x.2) ++ s.states.drop results.length })

/-- `ShareDummyVecEnv.close`: `for env in self.envs: env.close()` — closes
every instance on every call, with no closed-flag check. -/
def dummyClose (s : DummyState) : DummyState :=
  { s with envCloseCounts := s.envCloseCounts.map (fun c => c + 1) }

/-! ## Traces over the shared vectorized-environment interface -/

inductive VecOp
  | vreset : VecOp
  | vstep : List Int → VecOp
deriving DecidableEq, Repr

inductive TraceOut
  | rst : ResetB → TraceOut
  | stp : Batched → TraceOut
deriving DecidableEq, Repr

/-- One step round of `ShareSubprocVecEnv` (`step = step_async + step_wait`). -/
def subprocRound (envs : List EnvModel) (s : SubprocState) (acts : List Int) : WaitOut :=
  match step_async envs s acts with
  | AsyncOut.ok s1 => step_wait s1
  | AsyncOut.protocolViolation => WaitOut.protocolViolation

/-- Drive `ShareSubprocVecEnv` through a sequence of reset / step rounds
(each step round is `step_async` then `step_wait`), recording the outputs
and the final per-instance states; `none` when a call blocks or raises. -/
def runSubproc (envs : List EnvModel) : List VecOp → SubprocState →
    Option (List TraceOut × List Nat)
  | [], s => some ([], s.states)
  | VecOp.vreset :: ops, s =>
    match vecReset envs s with
    | none => none
    | some (r, s2) =>
      match runSubproc envs ops s2 with
      | none => none
      | some (ts, fin) => some (TraceOut.rst r :: ts, fin)
  | VecOp.vstep acts :: ops, s =>
    match subprocRound envs s acts with
    | WaitOut.ok b s2 =>
      match runSubproc envs ops s2 with
      | none => none
      | some (ts, fin) => some (TraceOut.stp b :: ts, fin)
    | _ => none

/-- Drive `ShareDummyVecEnv` through the same sequence; `none` when a call
raises. -/
def runDummy (envs : List EnvModel) : List VecOp → DummyState →
    Option (List TraceOut × List Nat)
  | [], s => some ([], s.states)
  | VecOp.vreset :: ops, s =>
    match dummyReset envs s with
    | (r, s2) =>
      match runDummy envs ops s2 with
      | none => none
      | some (ts, fin) => some (TraceOut.rst r :: ts, fin)
  | VecOp.vstep acts :: ops, s =>
    match dummyStepWait envs (dummyStepAsync s acts) with
    | Except.error _ => none
    | Except.ok (b, s2) =>
      match runDummy envs ops s2 with
      | none => none
      | some (ts, fin) => some (TraceOut.stp b :: ts, fin)

/-- A freshly constructed / quiescent `ShareSubprocVecEnv`: empty channels,
all workers alive, not waiting, not closed. -/
def cleanSub (n : Nat) (sts : List Nat) : SubprocState :=
  { states := sts, queues := List.replicate n [], alive := List.replicate n true,
    waiting := false, closed := false, closeCounts := List.replicate n 0 }

/-- The reference round: each worker's step processing applied positionally,
stopping at the first raised exception. -/
def workerRound : List EnvModel → List Nat → List Int →
    Except WorkerErr (List (StepRaw × Nat))
  | env :: envs, st :: sts, a :: acts =>
    match workerStep env st a with
    | Except.error e => Except.error e
    | Except.ok x =>
      match workerRound envs sts acts with
      | Except.error e => Except.error e
      | Except.ok xs => Except.ok (x :: xs)
  | _, _, _ => Except.ok []

/-! ## Round lemmas -/

lemma dummyLoop_zip_eq_workerRound (envs : List EnvModel) (sts : List Nat) (acts : List Int) :
    dummyLoop envs ((acts.zip (envs.zip sts)).map (fun p => p.2.1.stepF p.2.2 p.1)) =
      workerRound envs sts acts := by
  induction envs generalizing sts acts with
  | nil =>
    cases acts with
    | nil => simp [dummyLoop, workerRound]
    | cons a acts => simp [dummyLoop, workerRound]
  | cons env envs ih =>
    cases sts with
    | nil =>
      cases acts with
      | nil => simp [dummyLoop, workerRound]
      | cons a acts => simp [dummyLoop, workerRound]
    | cons st sts =>
      cases acts with
      | nil => simp [dummyLoop, workerRound]
      | cons a acts =>
        have hbridge := workerStep_eq_autoResetOne env st a
        rcases hst : env.stepF st a with ⟨r, st1⟩
        rw [hst] at hbridge
        simp only [List.zip_cons_cons, List.map_cons, hst]
        rw [workerRound, dummyLoop, ← hbridge, ih sts acts]

lemma dummyStepWait_char (envs : List EnvModel) (sts : List Nat) (acts : List Int)
    (cc : List Nat) :
    dummyStepWait envs { states := sts, actions := some acts, envCloseCounts := cc } =
      match workerRound envs sts acts with
      | Except.error e => Except.error e
      | Except.ok xs =>
        Except.ok (stackSteps (xs.map (fun x => x.1)),
          { states := xs.map (fun x => x.2) ++ sts.drop xs.length,
            actions := none, envCloseCounts := cc }) := by
  unfold dummyStepWait
  simp only
  rw [dummyLoop_zip_eq_workerRound]

lemma workerRound_ok_length (envs : List EnvModel) (sts : List Nat) (acts : List Int)
    (xs : List (StepRaw × Nat)) (hs : sts.length = envs.length)
    (ha : acts.length = envs.length) (h : workerRound envs sts acts = Except.ok xs) :
    xs.length = envs.length := by
  induction envs generalizing sts acts xs with
  | nil =>
    cases sts with
    | nil =>
      cases acts with
      | nil =>
        have h2 : (Except.ok [] : Except WorkerErr (List (StepRaw × Nat))) = Except.ok xs := h
        cases h2
        rfl
      | cons a acts => simp at ha
    | cons st sts => simp at hs
  | cons env envs ih =>
    cases sts with
    | nil => simp at hs
    | cons st sts =>
      cases acts with
      | nil => simp at ha
      | cons a acts =>
        rw [workerRound] at h
        cases hw : workerStep env st a with
        | error e => rw [hw] at h; cases h
        | ok x =>
          rw [hw] at h
          cases hrest : workerRound envs sts acts with
          | error e => rw [hrest] at h; cases h
          | ok xs2 =>
            rw [hrest] at h
            cases h
            simp only [List.length_cons]
            rw [ih sts acts xs2 (by simpa using hs) (by simpa using ha) hrest]

lemma sendSteps_clean_ok (envs : List EnvModel) (sts : List Nat) (acts : List Int)
    (xs : List (StepRaw × Nat)) (hs : sts.length = envs.length)
    (ha : acts.length = envs.length) (hok : workerRound envs sts acts = Except.ok xs) :
    sendSteps envs sts (List.replicate envs.length []) (List.replicate envs.length true) acts =
      (xs.map (fun x => x.2), xs.map (fun x => [Reply.step x.1]),
        List.replicate envs.length true) := by
  induction envs generalizing sts acts xs with
  | nil =>
    cases sts with
    | nil =>
      cases acts with
      | nil =>
        have h2 : (Except.ok [] : Except WorkerErr (List (StepRaw × Nat))) = Except.ok xs := hok
        cases h2
        rfl
      | cons a acts => simp at ha
    | cons st sts => simp at hs
  | cons env envs ih =>
    cases sts with
    | nil => simp at hs
    | cons st sts =>
      cases acts with
      | nil => simp at ha
      | cons a acts =>
        rw [workerRound] at hok
        cases hw : workerStep env st a with
        | error e => rw [hw] at hok; cases hok
        | ok x =>
          rw [hw] at hok
          cases hrest : workerRound envs sts acts with
          | error e => rw [hrest] at hok; cases hok
          | ok xs2 =>
            rw [hrest] at hok
            cases hok
            simp only [List.length_cons, List.replicate_succ]
            rw [sendSteps]
            rw [ih sts acts xs2 (by simpa using hs) (by simpa using ha) hrest]
            rcases x with ⟨r, st2⟩
            simp [procChannel, hw]

lemma sendSteps_clean_err (envs : List EnvModel) (sts : List Nat) (acts : List Int)
    (e : WorkerErr) (hs : sts.length = envs.length)
    (ha : acts.length = envs.length) (herr : workerRound envs sts acts = Except.error e) :
    [] ∈ (sendSteps envs sts (List.replicate envs.length [])
      (List.replicate envs.length true) acts).2.1 := by
  induction envs generalizing sts acts with
  | nil =>
    cases sts with
    | nil =>
      cases acts with
      | nil =>
        have h2 : (Except.ok [] : Except WorkerErr (List (StepRaw × Nat))) = Except.error e := herr
        cases h2
      | cons a acts => simp at ha
    | cons st sts => simp at hs
  | cons env envs ih =>
    cases sts with
    | nil => simp at hs
    | cons st sts =>
      cases acts with
      | nil => simp at ha
      | cons a acts =>
        rw [workerRound] at herr
        simp only [List.length_cons, List.replicate_succ]
        rw [sendSteps]
        cases hw : workerStep env st a with
        | error e2 =>
          simp [procChannel, hw]
        | ok x =>
          rw [hw] at herr
          cases hrest : workerRound envs sts acts with
          | ok xs2 => rw [hrest] at herr; cases herr
          | error e2 =>
            have := ih sts acts (by simpa using hs) (by simpa using ha) hrest
            rcases hsend : sendSteps envs sts (List.replicate envs.length [])
              (List.replicate envs.length true) acts with ⟨sts2, qs2, als2⟩
            rw [hsend] at this
            rcases x with ⟨r, st2⟩
            simp [procChannel, hw, hsend]
            simpa using this

lemma recvAll_step_singletons (xs : List (StepRaw × Nat)) :
    recvAll (xs.map (fun x => [Reply.step x.1])) =
      some (xs.map (fun x => Reply.step x.1), List.replicate xs.length []) := by
  induction xs with
  | nil => rfl
  | cons x xs ih =>
    rw [List.map_cons, recvAll, ih]
    rfl

lemma recvAll_rst_singletons (xs : List (ResetRaw × Nat)) :
    recvAll (xs.map (fun x => [Reply.rst x.1])) =
      some (xs.map (fun x => Reply.rst x.1), List.replicate xs.length []) := by
  induction xs with
  | nil => rfl
  | cons x xs ih =>
    rw [List.map_cons, recvAll, ih]
    rfl

lemma recvAll_none_of_mem_nil (qs : List (List Reply)) (h : [] ∈ qs) :
    recvAll qs = none := by
  induction qs with
  | nil => cases h
  | cons q qs ih =>
    rcases List.mem_cons.mp h with rfl | h2
    · rfl
    · cases q with
      | nil => rfl
      | cons r q => rw [recvAll, ih h2]

lemma allSteps_map_fst (xs : List (StepRaw × Nat)) :
    allSteps (xs.map (fun x => Reply.step x.1)) = some (xs.map (fun x => x.1)) := by
  induction xs with
  | nil => rfl
  | cons x xs ih =>
    rw [List.map_cons, allSteps, ih]
    rfl

lemma allResets_map_fst (xs : List (ResetRaw × Nat)) :
    allResets (xs.map (fun x => Reply.rst x.1)) = some (xs.map (fun x => x.1)) := by
  induction xs with
  | nil => rfl
  | cons x xs ih =>
    rw [List.map_cons, allResets, ih]
    rfl

/-- A successful step round from a quiescent subprocess state: the batch is
the worker replies stacked in channel order and the state is quiescent again. -/
lemma subprocRound_ok (envs : List EnvModel) (sts : List Nat) (acts : List Int)
    (xs : List (StepRaw × Nat)) (hs : sts.length = envs.length)
    (ha : acts.length = envs.length) (hok : workerRound envs sts acts = Except.ok xs) :
    subprocRound envs (cleanSub envs.length sts) acts =
      WaitOut.ok (stackSteps (xs.map (fun x => x.1)))
        (cleanSub envs.length (xs.map (fun x => x.2))) := by
  have hlen := workerRound_ok_length envs sts acts xs hs ha hok
  unfold subprocRound step_async
  simp only [cleanSub]
  rw [sendSteps_clean_ok envs sts acts xs hs ha hok]
  show step_wait _ = _
  unfold step_wait
  rw [recvAll_step_singletons xs]
  dsimp only
  rw [allSteps_map_fst xs]
  dsimp only
  rw [hlen]

/-- A failing step round from a quiescent subprocess state blocks: the raising
worker never replies. -/
lemma subprocRound_err (envs : List EnvModel) (sts : List Nat) (acts : List Int)
    (e : WorkerErr) (hs : sts.length = envs.length)
    (ha : acts.length = envs.length) (herr : workerRound envs sts acts = Except.error e) :
    subprocRound envs (cleanSub envs.length sts) acts = WaitOut.blocked := by
  unfold subprocRound step_async
  simp only [cleanSub]
  have hmem := sendSteps_clean_err envs sts acts e hs ha herr
  rcases hsend : sendSteps envs sts (List.replicate envs.length [])
    (List.replicate envs.length true) acts with ⟨sts2, qs2, als2⟩
  rw [hsend] at hmem
  simp only [step_wait]
  rw [recvAll_none_of_mem_nil qs2 hmem]

lemma sendResets_clean (envs : List EnvModel) (sts : List Nat)
    (hs : sts.length = envs.length) :
    sendResets envs sts (List.replicate envs.length []) (List.replicate envs.length true) =
      (((envs.zip sts).map (fun p => p.1.resetF p.2)).map (fun x => x.2),
       ((envs.zip sts).map (fun p => p.1.resetF p.2)).map (fun x => [Reply.rst x.1]),
       List.replicate envs.length true) := by
  induction envs generalizing sts with
  | nil =>
    cases sts with
    | nil => rfl
    | cons st sts => simp at hs
  | cons env envs ih =>
    cases sts with
    | nil => simp at hs
    | cons st sts =>
      simp only [List.length_cons, List.replicate_succ, List.zip_cons_cons, List.map_cons]
      rw [sendResets, ih sts (by simpa using hs)]
      rcases hr : env.resetF st with ⟨rr, st2⟩
      simp [hr]

lemma zip_resetF_length (envs : List EnvModel) (sts : List Nat)
    (hs : sts.length = envs.length) :
    ((envs.zip sts).map (fun p => p.1.resetF p.2)).length = envs.length := by
  rw [List.length_map, List.length_zip, hs, Nat.min_self]

/-- A reset round from a quiescent subprocess state: stacked fresh resets in
channel order, quiescent state again. -/
lemma vecReset_clean (envs : List EnvModel) (sts : List Nat)
    (hs : sts.length = envs.length) :
    vecReset envs (cleanSub envs.length sts) =
      some (stackResets (((envs.zip sts).map (fun p => p.1.resetF p.2)).map (fun x => x.1)),
        cleanSub envs.length
          (((envs.zip sts).map (fun p => p.1.resetF p.2)).map (fun x => x.2))) := by
  unfold vecReset
  simp only [cleanSub]
  rw [sendResets_clean envs sts hs]
  dsimp only
  rw [recvAll_rst_singletons]
  dsimp only
  rw [allResets_map_fst]
  dsimp only
  rw [zip_resetF_length envs sts hs]

lemma dummyReset_char (envs : List EnvModel) (sts : List Nat)
    (ac : Option (List Int)) (cc : List Nat) (hs : sts.length = envs.length) :
    dummyReset envs { states := sts, actions := ac, envCloseCounts := cc } =
      (stackResets (((envs.zip sts).map (fun p => p.1.resetF p.2)).map (fun x => x.1)),
       { states := ((envs.zip sts).map (fun p => p.1.resetF p.2)).map (fun x => x.2),
         actions := ac, envCloseCounts := cc }) := by
  unfold dummyReset
  dsimp only
  rw [zip_resetF_length envs sts hs, ← hs, List.drop_length, List.append_nil]

/-- Trace refinement: from matching initial per-instance states, the
in-process and subprocess vectorized environments produce identical outputs
and final states on every reset/step trace whose step batches match the
number of instances. -/
lemma runs_agree (envs : List EnvModel) (ops : List VecOp) (sts : List Nat) (cc : List Nat)
    (hs : sts.length = envs.length)
    (hops : ∀ acts, VecOp.vstep acts ∈ ops → acts.length = envs.length) :
    runSubproc envs ops (cleanSub envs.length sts) =
      runDummy envs ops { states := sts, actions := none, envCloseCounts := cc } := by
  induction ops generalizing sts with
  | nil => rfl
  | cons op ops ih =>
    cases op with
    | vreset =>
      rw [runSubproc, runDummy, vecReset_clean envs sts hs,
        dummyReset_char envs sts none cc hs]
      dsimp only
      rw [ih (((envs.zip sts).map (fun p => p.1.resetF p.2)).map (fun x => x.2))
        (by rw [List.length_map]; exact zip_resetF_length envs sts hs)
        (fun as hmem => hops as (List.mem_cons_of_mem _ hmem))]
    | vstep acts =>
      have hacts := hops acts (List.mem_cons_self _ _)
      rw [runSubproc, runDummy]
      have hDasync : dummyStepAsync { states := sts, actions := none, envCloseCounts := cc }
          acts = { states := sts, actions := some acts, envCloseCounts := cc } := rfl
      rw [hDasync, dummyStepWait_char]
      cases hwr : workerRound envs sts acts with
      | error e =>
        rw [subprocRound_err envs sts acts e hs hacts hwr]
      | ok xs =>
        have hlen := workerRound_ok_length envs sts acts xs hs hacts hwr
        rw [subprocRound_ok envs sts acts xs hs hacts hwr]
        dsimp only
        have hdrop : sts.drop xs.length = [] := by
          rw [hlen, ← hs]
          exact List.drop_length sts
        rw [hdrop, List.append_nil]
        rw [ih (xs.map (fun x => x.2)) (by rw [List.length_map]; exact hlen)
          (fun as hmem => hops as (List.mem_cons_of_mem _ hmem))]

/-! ## Concrete instances used by witnesses -/

/-- A 2-entry-observation environment that terminates (scalar `done=True`)
on every step, with a mapping at `info[0]`. -/
def envA : EnvModel :=
  { stepF := fun s a =>
      ({ ob := [Int.ofNat s, a], s_ob := [2, Int.ofNat s], reward := [5],
         done := Done.scalar true, info := [InfoEntry.mapping [("k", [9])]],
         avail := [1, 0] }, s + 1),
    resetF := fun _ => ({ ob := [100], s_ob := [200], avail := [300] }, 7) }

/-- An environment that never terminates (scalar `done=False`). -/
def envB : EnvModel :=
  { stepF := fun s a =>
      ({ ob := [a], s_ob := [Int.ofNat s], reward := [1], done := Done.scalar false,
         info := [], avail := [] }, s + 1),
    resetF := fun s => ({ ob := [10], s_ob := [20], avail := [30] }, s + 5) }

/-- An environment that terminates (all-true per-agent `done`) but returns an
empty `info` sequence. -/
def envC : EnvModel :=
  { stepF := fun s _ =>
      ({ ob := [1], s_ob := [2], reward := [3], done := Done.perAgent [true, true],
         info := [], avail := [4] }, s + 1),
    resetF := fun s => ({ ob := [9], s_ob := [9], avail := [9] }, s) }

/-! ## Claims -/

/-- C1: for every step command processed by a worker whose environment reports
termination, the worker records the terminal observation, shared observation
and available-actions in the info record of agent 0 under `original_obs`,
`original_state`, `original_avail_actions` (by value — the pure embedding of
`copy.deepcopy`), then resets the instance and returns the reset outputs as
observation/shared-observation/available-actions, while reward and done (and
the rest of the terminal info) are returned unchanged. -/
theorem C1_worker_auto_reset (env : EnvModel) (st : Nat) (a : Int)
    (r : StepRaw) (st1 : Nat) (d : Dict) (rest : Info)
    (hstep : env.stepF st a = (r, st1))
    (hdone : autoResetCond r.done = true)
    (hinfo : r.info = InfoEntry.mapping d :: rest) :
    ∃ d2 : Dict,
      workerStep env st a = Except.ok
        ({ ob := (env.resetF st1).1.ob, s_ob := (env.resetF st1).1.s_ob,
           reward := r.reward, done := r.done,
           info := InfoEntry.mapping d2 :: rest, avail := (env.resetF st1).1.avail },
         (env.resetF st1).2) ∧
      dictGet d2 "original_obs" = some r.ob ∧
      dictGet d2 "original_state" = some r.s_ob ∧
      dictGet d2 "original_avail_actions" = some r.avail ∧
      (∀ k : String, k ≠ "original_obs" → k ≠ "original_state" →
        k ≠ "original_avail_actions" → dictGet d2 k = dictGet d k) := by
  refine ⟨dictSet (dictSet (dictSet d "original_obs" r.ob) "original_state" r.s_ob)
    "original_avail_actions" r.avail, ?_, ?_, ?_, ?_, ?_⟩
  · rw [workerStep_eq_spec]
    unfold workerStepSpec
    rw [hstep]
    dsimp only
    rw [if_pos hdone]
    unfold doAutoReset injectOriginals
    rw [hinfo]
  · rw [dictGet_dictSet_other _ _ _ _ (by decide), dictGet_dictSet_other _ _ _ _ (by decide)]
    exact dictGet_dictSet_same _ _ _
  · rw [dictGet_dictSet_other _ _ _ _ (by decide)]
    exact dictGet_dictSet_same _ _ _
  · exact dictGet_dictSet_same _ _ _
  · intro k h1 h2 h3
    rw [dictGet_dictSet_other _ _ _ _ h3, dictGet_dictSet_other _ _ _ _ h2,
      dictGet_dictSet_other _ _ _ _ h1]

/-- Witness for C1 at a concrete terminating environment. -/
theorem C1_worker_auto_reset_witness :
    ∃ d2 : Dict,
      workerStep envA 0 3 = Except.ok
        ({ ob := (envA.resetF 1).1.ob, s_ob := (envA.resetF 1).1.s_ob,
           reward := [5], done := Done.scalar true,
           info := InfoEntry.mapping d2 :: [], avail := (envA.resetF 1).1.avail }, (envA.resetF 1).2) ∧
      dictGet d2 "original_obs" = some [0, 3] ∧
      dictGet d2 "original_state" = some [2, 0] ∧
      dictGet d2 "original_avail_actions" = some [1, 0] ∧
      (∀ k : String, k ≠ "original_obs" → k ≠ "original_state" →
        k ≠ "original_avail_actions" → dictGet d2 k = dictGet [("k", [9])] k) :=
  C1_worker_auto_reset envA 0 3
    { ob := [0, 3], s_ob := [2, 0], reward := [5], done := Done.scalar true,
      info := [InfoEntry.mapping [("k", [9])]], avail := [1, 0] } 1 [("k", [9])] []
    rfl rfl rfl

/-- C2: auto-reset is triggered exactly when `done` is a scalar boolean equal
to true, or a per-agent collection whose entries are all true; a per-agent
collection with a false entry is not reset; a scalar `True` and an all-true
collection behave identically — in the worker and in the in-process loop. -/
theorem C2_auto_reset_condition :
    (∀ (env : EnvModel) (st : Nat) (a : Int),
        workerStep env st a =
          (if autoResetCond (env.stepF st a).1.done
           then doAutoReset env (env.stepF st a).1 (env.stepF st a).2
           else Except.ok (env.stepF st a))) ∧
    (∀ (env : EnvModel) (r : StepRaw) (st : Nat),
        dummyAutoResetOne env r st =
          if autoResetCond r.done then doAutoReset env r st else Except.ok (r, st)) ∧
    (∀ b : Bool, autoResetCond (Done.scalar b) = b) ∧
    (∀ bs : List Bool, autoResetCond (Done.perAgent bs) = bs.all id) ∧
    (∀ n : Nat, autoResetCond (Done.perAgent (List.replicate n true)) =
        autoResetCond (Done.scalar true)) ∧
    (∀ bs : List Bool, false ∈ bs → autoResetCond (Done.perAgent bs) = false) := by
  refine ⟨?_, dummyAutoResetOne_eq, fun b => rfl, fun bs => rfl, ?_, ?_⟩
  · intro env st a
    rw [workerStep_eq_spec]
    unfold workerStepSpec
    rcases h : env.stepF st a with ⟨r, st1⟩
    rfl
  · intro n
    simp [autoResetCond, npAll]
  · intro bs h
    simp only [autoResetCond, npAll]
    rw [List.all_eq_false]
    exact ⟨false, h, by simp⟩

/-- Witness for C2: a partially-done per-agent collection does not reset. -/
theorem C2_auto_reset_condition_witness :
    autoResetCond (Done.perAgent [true, false]) = false ∧
    dummyAutoResetOne envB default 0 = Except.ok (default, 0) :=
  ⟨C2_auto_reset_condition.2.2.2.2.2 [true, false] (by simp),
   by rw [C2_auto_reset_condition.2.1 envB default 0]; rfl⟩

/-- The state of a 1-environment `ShareSubprocVecEnv` right after a
`step_async` (an async step is pending). -/
def pendingState : SubprocState :=
  match step_async [envA] (cleanSub 1 [0]) [3] with
  | AsyncOut.ok s => s
  | AsyncOut.protocolViolation => cleanSub 1 [0]

/-- C3 counterexample: a `step_wait` with no pending `step_async` blocks on
`recv` instead of failing with `ProtocolViolation`, and a `step_async` while
one is already pending succeeds (sending a second round of commands) instead
of failing with `ProtocolViolation`. -/
theorem C3_no_protocol_violation_counterexample :
    step_wait (cleanSub 1 [0]) = WaitOut.blocked ∧
    step_wait (cleanSub 1 [0]) ≠ WaitOut.protocolViolation ∧
    pendingState.waiting = true ∧
    step_async [envA] pendingState [3] ≠ AsyncOut.protocolViolation := by
  refine ⟨rfl, by decide, by decide, by decide⟩

/-- C3 amended: neither call validates the protocol — `step_async` always
succeeds (even while a step is pending, in which case it sends a second round
of commands and leaves the pending flag set), and `step_wait` on a channel
with nothing to deliver blocks on the receive rather than raising. -/
theorem C3_no_protocol_check (envs : List EnvModel) (s : SubprocState)
    (acts : List Int) (hq : [] ∈ s.queues) :
    (∃ s2, step_async envs s acts = AsyncOut.ok s2 ∧ s2.waiting = true) ∧
    step_wait s = WaitOut.blocked := by
  constructor
  · refine ⟨_, rfl, rfl⟩
  · unfold step_wait
    rw [recvAll_none_of_mem_nil _ hq]

/-- Witness for C3 amended, on a fresh 1-environment state. -/
theorem C3_no_protocol_check_witness :
    step_wait (cleanSub 1 [5]) = WaitOut.blocked :=
  (C3_no_protocol_check [envA] (cleanSub 1 [5]) [3] (by simp [cleanSub])).2

/-- C4: the stacking utility computes the max last-dimension extent,
right-pads every tensor's last dimension to it with the caller-supplied fill,
and stacks along a new axis at position -2 of the output — adjacent to the
original last dimension, not a leading batch axis: the output's leading axis
is the tensors' common leading dimension `A`, and slice `[a][i]` is tensor
`i`'s row `a` right-padded. -/
theorem C4_stack_axis_placement (tensors : List Tensor2) (fill : Int) (A : Nat)
    (h0 : tensors ≠ []) (hA : ∀ t ∈ tensors, t.length = A) (hA0 : 0 < A)
    (hrect : ∀ t ∈ tensors, ∀ row ∈ t, row.length = (t.headD []).length)
    (hmax : 0 < maxNat (tensors.map (fun t => (t.headD []).length))) :
    (stack_padded_tensors_last_axis2 tensors fill).length = A ∧
    stack_padded_tensors_last_axis2 tensors fill =
      (List.range A).map (fun a =>
        tensors.map (fun t =>
          padRight (t.getD a []) (maxNat (tensors.map (fun t2 => (t2.headD []).length))) fill)) ∧
    (∀ t ∈ tensors,
      (t.headD []).length ≤ maxNat (tensors.map (fun t2 => (t2.headD []).length))) := by
  have hchar := stack_padded2_char tensors fill A h0 hA hA0 hrect hmax
  refine ⟨?_, hchar, ?_⟩
  · rw [hchar, List.length_map, List.length_range]
  · intro t ht
    exact le_maxNat_of_mem (List.mem_map_of_mem (fun t2 => (t2.headD []).length) ht)

/-- Witness for C4: two rank-2 tensors with last dimensions 2 and 1; the
stacked axis lands between the leading axis and the padded last axis. -/
theorem C4_stack_axis_placement_witness :
    stack_padded_tensors_last_axis2 [[[1, 2], [3, 4]], [[5], [6]]] 0 =
      [[[1, 2], [5, 0]], [[3, 4], [6, 0]]] := by
  have h := (C4_stack_axis_placement [[[1, 2], [3, 4]], [[5], [6]]] 0 2
    (by decide) (by decide) (by decide) (by decide) (by decide)).2.1
  rw [h]
  decide

/-- C5: stacking rank-1 tensors of last-dimension sizes [3, 5, 2] with fill 0
yields a rectangular output of last dimension 5, with every position beyond a
tensor's original extent equal to 0 and the original values preserved in the
first 3, 5, 2 positions respectively. -/
theorem C5_padding_round_trip (t1 t2 t3 : List Int)
    (h1 : t1.length = 3) (h2 : t2.length = 5) (h3 : t3.length = 2) :
    stack_padded_tensors_last_axis [t1, t2, t3] 0 =
      [t1 ++ [0, 0], t2, t3 ++ [0, 0, 0]] ∧
    (∀ row ∈ stack_padded_tensors_last_axis [t1, t2, t3] 0, row.length = 5) ∧
    ((stack_padded_tensors_last_axis [t1, t2, t3] 0).getD 0 []).take 3 = t1 ∧
    ((stack_padded_tensors_last_axis [t1, t2, t3] 0).getD 1 []).take 5 = t2 ∧
    ((stack_padded_tensors_last_axis [t1, t2, t3] 0).getD 2 []).take 2 = t3 ∧
    ((stack_padded_tensors_last_axis [t1, t2, t3] 0).getD 0 []).drop 3 = [0, 0] ∧
    ((stack_padded_tensors_last_axis [t1, t2, t3] 0).getD 2 []).drop 2 = [0, 0, 0] := by
  have hmax : maxNat ([t1, t2, t3].map (fun t => t.length)) = 5 := by
    simp [maxNat, h1, h2, h3]
  have hchar := stack_padded1_char [t1, t2, t3] 0 (by simp) (by rw [hmax]; exact Nat.succ_pos 4)
  rw [hmax] at hchar
  have hp1 : padRight t1 5 0 = t1 ++ [0, 0] := by
    unfold padRight
    rw [h1]
    rfl
  have hp2 : padRight t2 5 0 = t2 := by
    unfold padRight
    rw [h2]
    simp
  have hp3 : padRight t3 5 0 = t3 ++ [0, 0, 0] := by
    unfold padRight
    rw [h3]
    rfl
  have heq : stack_padded_tensors_last_axis [t1, t2, t3] 0 =
      [t1 ++ [0, 0], t2, t3 ++ [0, 0, 0]] := by
    rw [hchar, List.map_cons, List.map_cons, List.map_cons, List.map_nil, hp1, hp2, hp3]
  refine ⟨heq, ?_, ?_, ?_, ?_, ?_, ?_⟩
  · intro row hrow
    rw [heq] at hrow
    simp only [List.mem_cons, List.not_mem_nil, or_false] at hrow
    rcases hrow with rfl | rfl | rfl
    · simp [h1]
    · exact h2
    · simp [h3]
  · rw [heq]
    show (t1 ++ [0, 0]).take 3 = t1
    rw [← h1, List.take_left]
  · rw [heq]
    show t2.take 5 = t2
    rw [← h2, List.take_length]
  · rw [heq]
    show (t3 ++ [0, 0, 0]).take 2 = t3
    rw [← h3, List.take_left]
  · rw [heq]
    have hred : ([t1 ++ [0, 0], t2, t3 ++ [0, 0, 0]] : List (List Int)).getD 0 [] =
        t1 ++ [0, 0] := rfl
    rw [hred, ← h1, List.drop_left]
  · rw [heq]
    have hred : ([t1 ++ [0, 0], t2, t3 ++ [0, 0, 0]] : List (List Int)).getD 2 [] =
        t3 ++ [0, 0, 0] := rfl
    rw [hred, ← h3, List.drop_left]

/-- Witness for C5 at concrete tensor values. -/
theorem C5_padding_round_trip_witness :
    stack_padded_tensors_last_axis [[1, 2, 3], [4, 5, 6, 7, 8], [9, 10]] 0 =
      [[1, 2, 3, 0, 0], [4, 5, 6, 7, 8], [9, 10, 0, 0, 0]] := by
  have h := (C5_padding_round_trip [1, 2, 3] [4, 5, 6, 7, 8] [9, 10] rfl rfl rfl).1
  rw [h]
  rfl

/-- C6 counterexample: the in-process variant's `close` is not idempotent — a
second call sends a second `close` to every already-closed instance. -/
theorem C6_close_counterexample :
    dummyClose (dummyClose { states := [0], actions := none, envCloseCounts := [0] }) ≠
      dummyClose { states := [0], actions := none, envCloseCounts := [0] } := by
  decide

/-- C6 amended: `close` on the subprocess variant is idempotent (a second
call returns immediately, sending no further commands), while the in-process
variant's `close` re-invokes `env.close()` on every instance on every call. -/
theorem C6_close_idempotence (s s2 : SubprocState) (h : closeSub s = some s2) :
    closeSub s2 = some s2 ∧
    (∀ d : DummyState, dummyClose d =
      { d with envCloseCounts := d.envCloseCounts.map (fun c => c + 1) }) := by
  refine ⟨?_, fun d => rfl⟩
  have hc : s2.closed = true := by
    unfold closeSub at h
    by_cases hcl : s.closed
    · rw [if_pos hcl] at h
      cases h
      exact hcl
    · rw [if_neg hcl] at h
      rcases hdr : (if s.waiting then
          (match recvAll s.queues with
           | none => none
           | some (_, qs) => some { s with queues := qs })
        else some s) with _ | s1
      · rw [hdr] at h
        cases h
      · rw [hdr] at h
        cases h
        rfl
  unfold closeSub
  rw [if_pos hc]

/-- Witness for C6 amended: a full close of a fresh 1-environment subprocess
state, then the no-op second close. -/
theorem C6_close_idempotence_witness :
    closeSub { states := [0], queues := [[]], alive := [false], waiting := false,
               closed := true, closeCounts := [1] } =
      some { states := [0], queues := [[]], alive := [false], waiting := false,
             closed := true, closeCounts := [1] } :=
  (C6_close_idempotence (cleanSub 1 [0])
    { states := [0], queues := [[]], alive := [false], waiting := false,
      closed := true, closeCounts := [1] } (by rfl)).1

/-- C7: a step round from a quiescent state receives exactly one reply per
channel in channel order and stacks observation, shared observation, reward,
done and available-actions along a new leading axis, with `infos` an ordered
unstacked sequence; batch position i corresponds to worker i. -/
theorem C7_step_wait_stacking (envs : List EnvModel) (sts : List Nat) (acts : List Int)
    (xs : List (StepRaw × Nat)) (hs : sts.length = envs.length)
    (ha : acts.length = envs.length)
    (hok : workerRound envs sts acts = Except.ok xs) :
    subprocRound envs (cleanSub envs.length sts) acts =
      WaitOut.ok
        { obs := xs.map (fun x => x.1.ob), share_obs := xs.map (fun x => x.1.s_ob),
          rews := xs.map (fun x => x.1.reward), dones := xs.map (fun x => x.1.done),
          infos := xs.map (fun x => x.1.info), avails := xs.map (fun x => x.1.avail) }
        (cleanSub envs.length (xs.map (fun x => x.2))) ∧
    (∀ i, i < envs.length →
      (xs.map (fun x => x.1.ob)).getD i [] = (xs.getD i default).1.ob ∧
      (xs.map (fun x => x.1.info)).getD i [] = (xs.getD i default).1.info) := by
  have hlen := workerRound_ok_length envs sts acts xs hs ha hok
  constructor
  · rw [subprocRound_ok envs sts acts xs hs ha hok]
    unfold stackSteps
    simp [List.map_map]
  · intro i hi
    have hixs : i < xs.length := by rw [hlen]; exact hi
    constructor
    · rw [List.getD_eq_getElem _ _ (by rw [List.length_map]; exact hixs),
        List.getElem_map, List.getD_eq_getElem _ _ hixs]
    · rw [List.getD_eq_getElem _ _ (by rw [List.length_map]; exact hixs),
        List.getElem_map, List.getD_eq_getElem _ _ hixs]

/-- Witness for C7: one never-terminating environment, one step round. -/
theorem C7_step_wait_stacking_witness :
    subprocRound [envB] (cleanSub 1 [0]) [4] =
      WaitOut.ok
        { obs := [[4]], share_obs := [[0]], rews := [[1]], dones := [Done.scalar false],
          infos := [[]], avails := [[]] }
        (cleanSub 1 [1]) := by
  have h := (C7_step_wait_stacking [envB] [0] [4]
    [({ ob := [4], s_ob := [0], reward := [1], done := Done.scalar false,
        info := [], avail := [] }, 1)] rfl rfl (by rfl)).1
  exact h

/-- C8: over every reset/step trace whose step batches match the instance
count, the in-process vectorized environment produces exactly the outputs and
final per-instance states of the subprocess one from matching initial states
(identical auto-reset policy and identical stacking); failures coincide. -/
theorem C8_dummy_drop_in (envs : List EnvModel) (ops : List VecOp) (sts cc : List Nat)
    (hs : sts.length = envs.length)
    (hops : ∀ acts, VecOp.vstep acts ∈ ops → acts.length = envs.length) :
    runSubproc envs ops (cleanSub envs.length sts) =
      runDummy envs ops { states := sts, actions := none, envCloseCounts := cc } :=
  runs_agree envs ops sts cc hs hops

/-- Witness for C8: a reset followed by a step on one environment. -/
theorem C8_dummy_drop_in_witness :
    runSubproc [envB] [VecOp.vreset, VecOp.vstep [5]] (cleanSub 1 [0]) =
      runDummy [envB] [VecOp.vreset, VecOp.vstep [5]]
        { states := [0], actions := none, envCloseCounts := [0] } :=
  C8_dummy_drop_in [envB] [VecOp.vreset, VecOp.vstep [5]] [0] [0] rfl
    (by
      intro acts h
      simp only [List.mem_cons, List.not_mem_nil, or_false] at h
      rcases h with h | h
      · exact VecOp.noConfusion h
      · cases h
        rfl)

lemma sendSteps_cons (env : EnvModel) (envs : List EnvModel) (st : Nat) (sts : List Nat)
    (q : List Reply) (qs : List (List Reply)) (al : Bool) (als : List Bool)
    (a : Int) (acts : List Int) :
    sendSteps (env :: envs) (st :: sts) (q :: qs) (al :: als) (a :: acts) =
      ((procChannel env st q al a).1 :: (sendSteps envs sts qs als acts).1,
       (procChannel env st q al a).2.1 :: (sendSteps envs sts qs als acts).2.1,
       (procChannel env st q al a).2.2 :: (sendSteps envs sts qs als acts).2.2) := rfl

lemma sendSteps_getD (envs : List EnvModel) (sts : List Nat) (qs : List (List Reply))
    (als : List Bool) (acts : List Int)
    (hs : sts.length = envs.length) (hq : qs.length = envs.length)
    (hal : als.length = envs.length) :
    (sendSteps envs sts qs als acts).1.length = envs.length ∧
    (sendSteps envs sts qs als acts).2.1.length = envs.length ∧
    (sendSteps envs sts qs als acts).2.2.length = envs.length ∧
    (∀ i, min acts.length envs.length ≤ i →
      (sendSteps envs sts qs als acts).1.getD i 0 = sts.getD i 0 ∧
      (sendSteps envs sts qs als acts).2.1.getD i [] = qs.getD i [] ∧
      (sendSteps envs sts qs als acts).2.2.getD i false = als.getD i false) ∧
    (∀ i, i < min acts.length envs.length →
      ((sendSteps envs sts qs als acts).1.getD i 0,
       (sendSteps envs sts qs als acts).2.1.getD i [],
       (sendSteps envs sts qs als acts).2.2.getD i false) =
        procChannel (envs.getD i defaultEnv) (sts.getD i 0) (qs.getD i [])
          (als.getD i false) (acts.getD i 0)) := by
  induction envs generalizing sts qs als acts with
  | nil =>
    have h1 : sts = [] := List.length_eq_zero.mp (by simpa using hs)
    have h2 : qs = [] := List.length_eq_zero.mp (by simpa using hq)
    have h3 : als = [] := List.length_eq_zero.mp (by simpa using hal)
    subst h1 h2 h3
    cases acts with
    | nil => exact ⟨rfl, rfl, rfl, fun i _ => ⟨rfl, rfl, rfl⟩, fun i hi => by simp at hi⟩
    | cons a acts => exact ⟨rfl, rfl, rfl, fun i _ => ⟨rfl, rfl, rfl⟩, fun i hi => by simp at hi⟩
  | cons env envs ih =>
    rcases sts with _ | ⟨st, sts⟩
    · simp at hs
    rcases qs with _ | ⟨q, qs⟩
    · simp at hq
    rcases als with _ | ⟨al, als⟩
    · simp at hal
    cases acts with
    | nil =>
      exact ⟨hs, hq, hal, fun i _ => ⟨rfl, rfl, rfl⟩, fun i hi => by simp at hi⟩
    | cons a acts =>
      obtain ⟨l1, l2, l3, hsuf, hpre⟩ := ih sts qs als acts (by simpa using hs)
        (by simpa using hq) (by simpa using hal)
      rw [sendSteps_cons]
      refine ⟨by simp [l1], by simp [l2], by simp [l3], ?_, ?_⟩
      · intro i hi
        simp only [List.length_cons] at hi
        cases i with
        | zero => omega
        | succ i =>
          simp only [List.getD_cons_succ]
          refine hsuf i ?_
          omega
      · intro i hi
        simp only [List.length_cons] at hi
        cases i with
        | zero =>
          simp only [List.getD_cons_zero]
        | succ i =>
          simp only [List.getD_cons_succ]
          refine hpre i ?_
          omega

/-- `workerRound` truncates at the shortest of the three lists, exactly like
the `zip`-driven loops in both vectorized environments. -/
lemma workerRound_ok_length_min (envs : List EnvModel) (sts : List Nat) (acts : List Int)
    (xs : List (StepRaw × Nat)) (h : workerRound envs sts acts = Except.ok xs) :
    xs.length = min envs.length (min sts.length acts.length) := by
  induction envs generalizing sts acts xs with
  | nil =>
    have h2 : (Except.ok [] : Except WorkerErr (List (StepRaw × Nat))) = Except.ok xs := h
    cases h2
    simp
  | cons env envs ih =>
    cases sts with
    | nil =>
      have h2 : (Except.ok [] : Except WorkerErr (List (StepRaw × Nat))) = Except.ok xs := h
      cases h2
      simp
    | cons st sts =>
      cases acts with
      | nil =>
        have h2 : (Except.ok [] : Except WorkerErr (List (StepRaw × Nat))) = Except.ok xs := h
        cases h2
        simp
      | cons a acts =>
        rw [workerRound] at h
        cases hw : workerStep env st a with
        | error e => rw [hw] at h; cases h
        | ok x =>
          rw [hw] at h
          cases hrest : workerRound envs sts acts with
          | error e => rw [hrest] at h; cases h
          | ok xs2 =>
            rw [hrest] at h
            cases h
            have := ih sts acts xs2 hrest
            simp only [List.length_cons]
            omega

/-- Reading past the stepped prefix of `stepped-states ++ untouched-suffix`
gives the original state: the instances past the zip truncation are untouched. -/
lemma getD_append_drop (xs2 : List Nat) (sts : List Nat) (i : Nat) (h : xs2.length ≤ i) :
    (xs2 ++ sts.drop xs2.length).getD i 0 = sts.getD i 0 := by
  induction xs2 generalizing sts i with
  | nil => simp
  | cons x xs2 ih =>
    cases i with
    | zero => simp at h
    | succ i =>
      have hdrop : sts.drop (x :: xs2).length = sts.tail.drop xs2.length := by
        cases sts with
        | nil => simp
        | cons s sts => simp
      rw [hdrop]
      simp only [List.cons_append, List.getD_cons_succ]
      rw [ih sts.tail i (by simpa using h)]
      cases sts with
      | nil => simp
      | cons s sts => rfl

/-- C9: both variants zip actions with instances by position and raise no
error on a size mismatch.  `ShareSubprocVecEnv.step_async` sends a `step`
command to exactly the first `min(m, N)` channels, each paired with the
matching action, and channels past that are untouched.
`ShareDummyVecEnv.step_wait` steps exactly the first `min(m, N)` instances
(the per-position worker processing), leaves the remaining instances' states
untouched, and returns a batch of exactly `min(m, N)` entries. -/
theorem C9_action_count_truncation (envs : List EnvModel) (s : SubprocState)
    (acts : List Int) (hs : s.states.length = envs.length)
    (hq : s.queues.length = envs.length) (hal : s.alive.length = envs.length) :
    (∃ s2 : SubprocState,
      step_async envs s acts = AsyncOut.ok s2 ∧ s2.waiting = true ∧
      s2.states.length = envs.length ∧ s2.queues.length = envs.length ∧
      (∀ i, min acts.length envs.length ≤ i →
        s2.states.getD i 0 = s.states.getD i 0 ∧
        s2.queues.getD i [] = s.queues.getD i [] ∧
        s2.alive.getD i false = s.alive.getD i false) ∧
      (∀ i, i < min acts.length envs.length →
        (s2.states.getD i 0, s2.queues.getD i [], s2.alive.getD i false) =
          procChannel (envs.getD i defaultEnv) (s.states.getD i 0)
            (s.queues.getD i []) (s.alive.getD i false) (acts.getD i 0))) ∧
    (∀ (cc : List Nat) (xs : List (StepRaw × Nat)),
      workerRound envs s.states acts = Except.ok xs →
      dummyStepWait envs
          { states := s.states, actions := some acts, envCloseCounts := cc } =
        Except.ok (stackSteps (xs.map (fun x => x.1)),
          { states := xs.map (fun x => x.2) ++ s.states.drop xs.length,
            actions := none, envCloseCounts := cc }) ∧
      xs.length = min acts.length envs.length ∧
      (∀ i, min acts.length envs.length ≤ i →
        (xs.map (fun x => x.2) ++ s.states.drop xs.length).getD i 0 =
          s.states.getD i 0) ∧
      (stackSteps (xs.map (fun x => x.1))).obs.length = min acts.length envs.length) := by
  constructor
  · obtain ⟨l1, l2, l3, hsuf, hpre⟩ :=
      sendSteps_getD envs s.states s.queues s.alive acts hs hq hal
    refine ⟨{ s with
        states := (sendSteps envs s.states s.queues s.alive acts).1,
        queues := (sendSteps envs s.states s.queues s.alive acts).2.1,
        alive := (sendSteps envs s.states s.queues s.alive acts).2.2,
        waiting := true }, rfl, rfl, l1, l2, hsuf, hpre⟩
  · intro cc xs hok
    have hxlen := workerRound_ok_length_min envs s.states acts xs hok
    have hmin : xs.length = min acts.length envs.length := by
      rw [hs] at hxlen
      omega
    refine ⟨?_, hmin, ?_, ?_⟩
    · rw [dummyStepWait_char, hok]
    · intro i hi
      rw [← hmin] at hi
      have hg := getD_append_drop (xs.map (fun x => x.2)) s.states i
        (by rw [List.length_map]; exact hi)
      rw [List.length_map] at hg
      exact hg
    · simp [stackSteps, hmin]

/-- Extract the state from a `step_async` outcome. -/
def asyncStateD (o : AsyncOut) : SubprocState :=
  match o with
  | AsyncOut.ok s => s
  | AsyncOut.protocolViolation => cleanSub 0 []

/-- Witness for C9: two instances, one action — in both variants instance 0
is stepped with action 5, instance 1 receives no command and keeps its state,
and no error is raised. -/
theorem C9_action_count_truncation_witness :
    (step_async [envB, envB] (cleanSub 2 [0, 0]) [5] ≠ AsyncOut.protocolViolation ∧
     (asyncStateD (step_async [envB, envB] (cleanSub 2 [0, 0]) [5])).queues.getD 1 [] = [] ∧
     (asyncStateD (step_async [envB, envB] (cleanSub 2 [0, 0]) [5])).states.getD 1 0 = 0) ∧
    dummyStepWait [envB, envB]
        { states := [0, 0], actions := some [5], envCloseCounts := [0, 0] } =
      Except.ok
        ({ obs := [[5]], share_obs := [[0]], rews := [[1]], dones := [Done.scalar false],
           infos := [[]], avails := [[]] },
         { states := [1, 0], actions := none, envCloseCounts := [0, 0] }) := by
  obtain ⟨⟨s2, h1, hw, hl1, hl2, hsuf, hpre⟩, hdum⟩ :=
    C9_action_count_truncation [envB, envB] (cleanSub 2 [0, 0]) [5] rfl rfl rfl
  obtain ⟨ha, hb, hc⟩ := hsuf 1 (by simp)
  obtain ⟨hdeq, hdlen, hdsuf, hdobs⟩ := hdum [0, 0]
    [({ ob := [5], s_ob := [0], reward := [1], done := Done.scalar false,
        info := [], avail := [] }, 1)] (by rfl)
  refine ⟨?_, ?_⟩
  · rw [h1]
    refine ⟨by simp, ?_, ?_⟩
    · show s2.queues.getD 1 [] = []
      rw [hb]
      rfl
    · show s2.states.getD 1 0 = 0
      rw [ha]
      rfl
  · exact hdeq

/-- C10: when a step terminates (auto-reset branch taken), the worker's
`info[0][...]` writes presuppose a non-empty info sequence whose element 0 is
a mapping; under that precondition the worker replies normally, and when it
is violated the worker raises instead of replying (its channel receives no
reply), and the in-process loop body raises identically. -/
theorem C10_info_precondition (env : EnvModel) (st : Nat) (a : Int)
    (hterm : autoResetCond (env.stepF st a).1.done = true) :
    ((∃ d rest, (env.stepF st a).1.info = InfoEntry.mapping d :: rest) →
      ∃ out, workerStep env st a = Except.ok out) ∧
    (((env.stepF st a).1.info = [] ∨
      ∃ rest, (env.stepF st a).1.info = InfoEntry.notMapping :: rest) →
      workerStep env st a = Except.error WorkerErr.raised) ∧
    (workerStep env st a = Except.error WorkerErr.raised →
      ∀ q : List Reply, sendSteps [env] [st] [q] [true] [a] = ([st], [q], [false])) ∧
    (((env.stepF st a).1.info = [] ∨
      ∃ rest, (env.stepF st a).1.info = InfoEntry.notMapping :: rest) →
      dummyAutoResetOne env (env.stepF st a).1 (env.stepF st a).2 =
        Except.error WorkerErr.raised) := by
  have hbridge := workerStep_eq_autoResetOne env st a
  have herrCase : ((env.stepF st a).1.info = [] ∨
      ∃ rest, (env.stepF st a).1.info = InfoEntry.notMapping :: rest) →
      workerStep env st a = Except.error WorkerErr.raised := by
    intro hbad
    rw [workerStep_eq_spec]
    unfold workerStepSpec
    rcases hst : env.stepF st a with ⟨r, st1⟩
    rw [hst] at hterm hbad
    dsimp only at hterm hbad ⊢
    rw [if_pos hterm]
    unfold doAutoReset injectOriginals
    rcases hbad with hnil | ⟨rest, hcons⟩
    · rw [hnil]
    · rw [hcons]
  refine ⟨?_, herrCase, ?_, ?_⟩
  · rintro ⟨d, rest, hinfo⟩
    rw [workerStep_eq_spec]
    unfold workerStepSpec
    rcases hst : env.stepF st a with ⟨r, st1⟩
    rw [hst] at hterm hinfo
    dsimp only at hterm hinfo ⊢
    rw [if_pos hterm]
    unfold doAutoReset injectOriginals
    rw [hinfo]
    exact ⟨_, rfl⟩
  · intro herr q
    rw [sendSteps_cons]
    simp [procChannel, herr]
    exact ⟨rfl, rfl, rfl⟩
  · intro hbad
    rw [← hbridge]
    exact herrCase hbad

/-- Witness for C10: a terminating step with an empty info sequence raises
and the channel receives no reply. -/
theorem C10_info_precondition_witness :
    workerStep envC 0 1 = Except.error WorkerErr.raised ∧
    sendSteps [envC] [0] [[]] [true] [1] = ([0], [[]], [false]) := by
  have h := C10_info_precondition envC 0 1 (by rfl)
  have herr := h.2.1 (Or.inl rfl)
  exact ⟨herr, h.2.2.1 herr []⟩

end EnvWrappers
